import Mathlib

/-!
Verification development for a repository containing two small Rust programs:
a backtracking Sudoku solver (`sudoku-solver.rs`) and a Tic-Tac-Toe board
model (`tic-tac-toe.rs`).  Each Rust function is shallowly embedded as an
executable Lean definition; the theorems below settle the specification
claims about them.
-/

namespace SudokuSolver

/-- A grid is the row-major list of the 81 cells of the Rust `[[i8; 9]; 9]`
array; cell `(row, col)` lives at index `9 * row + col`. -/
abbrev Grid := List Int

/-- Reading `grid[row][col]`; out-of-range reads default to 0 (they never
occur on length-81 grids with `row, col < 9`). -/
def getCell (g : Grid) (row col : Nat) : Int := g.getD (9 * row + col) 0

/-- Writing `grid[row][col] = v`. -/
def setCell (g : Grid) (row col : Nat) (v : Int) : Grid := g.set (9 * row + col) v

/-- Embedding of `used_in_row`: the Rust code iterates over the whole row
`grid[row]` (all nine columns). -/
def used_in_row (g : Grid) (row : Nat) (num : Int) : Bool :=
  (List.range 9).any (fun i => getCell g row i == num)

/-- Embedding of `used_in_col`: the Rust code loops `for i in 0..8`, so it
inspects rows 0 through 7 only (row 8 is never checked). -/
def used_in_col (g : Grid) (col : Nat) (num : Int) : Bool :=
  (List.range 8).any (fun i => getCell g i col == num)

/-- Embedding of `used_in_box`: the first cell of the box is obtained by
rounding `row` and `col` down to the nearest multiple of 3. -/
def used_in_box (g : Grid) (row col : Nat) (num : Int) : Bool :=
  (List.range 3).any (fun i => (List.range 3).any (fun j =>
    getCell g (i + (row - row % 3)) (j + (col - col % 3)) == num))

/-- Embedding of `is_location_safe` (the Rust `&` on booleans agrees with
`&&` in value). -/
def is_location_safe (g : Grid) (row col : Nat) (num : Int) : Bool :=
  (!used_in_col g col num) && (!used_in_row g row num) && (!used_in_box g row col num)

/-- The row-major scan order of the nested loops of `find_empty`:
rows 0..8, and within each row columns 0..8. -/
def positions : List (Nat × Nat) :=
  (List.range 9).flatMap (fun row => (List.range 9).map (fun col => (row, col)))

/-- The nested loops of `find_empty` with their early `return`: the first
position in the list whose cell is 0 is returned. -/
def findEmptyFrom (g : Grid) : List (Nat × Nat) → Nat × Nat
  | [] => (9, 9)
  | p :: rest => if getCell g p.1 p.2 == 0 then p else findEmptyFrom g rest

/-- Embedding of `find_empty`: first zero cell in row-major order, or the
sentinel `(9, 9)` when no cell is 0 (the `print!("Done")` side effect is
irrelevant to the returned value). -/
def find_empty (g : Grid) : Nat × Nat := findEmptyFrom g positions

/-- Result of one call of the solver: the returned boolean, the grid held by
that call at the moment it returns (in Rust the array is passed by value, so
each level owns a copy), and the trace of the grids passed to the recursive
calls made below this level. -/
structure SolveOut where
  ok : Bool
  grid : Grid
  calls : List Grid
deriving DecidableEq, Repr

/-- The `for i in 1..10` loop body of `solve_sudoku`: try each digit, place
it, recurse, and on failure undo the placement (reset the cell to 0) before
trying the next digit.  `go` is the recursive solver one level down. -/
def digitLoop (go : Grid → SolveOut) (row col : Nat) : Grid → List Int → SolveOut
  | g, [] => ⟨false, g, []⟩
  | g, i :: rest =>
    if is_location_safe g row col i then
      let placed := setCell g row col i
      let out := go placed
      if out.ok then ⟨true, out.grid, placed :: out.calls⟩
      else
        let res := digitLoop go row col (setCell placed row col 0) rest
        ⟨res.ok, res.grid, placed :: (out.calls ++ res.calls)⟩
    else digitLoop go row col g rest

/-- Embedding of `solve_sudoku`, with the general recursion rendered by a
fuel parameter (each recursive call strictly decreases the number of empty
cells, so fuel 82 is never exhausted on a 9×9 grid; see the termination
theorem below). -/
def solveAux : Nat → Grid → SolveOut
  | 0, g => ⟨false, g, []⟩
  | fuel + 1, g =>
    let l := find_empty g
    if l = (9, 9) then ⟨true, g, []⟩
    else digitLoop (solveAux fuel) l.1 l.2 g [1, 2, 3, 4, 5, 6, 7, 8, 9]

/-- The solver as called by `main`. -/
def solve_sudoku (g : Grid) : SolveOut := solveAux 82 g

/-- The nine digits, in the order tried by the solver. -/
def digits : List Int := [1, 2, 3, 4, 5, 6, 7, 8, 9]

/-- The cells of row `r`. -/
def rowCells (g : Grid) (r : Nat) : List Int :=
  (List.range 9).map (fun c => getCell g r c)

/-- The cells of column `c` (all nine rows). -/
def colCells (g : Grid) (c : Nat) : List Int :=
  (List.range 9).map (fun r => getCell g r c)

/-- The cells of box `b` (boxes numbered 0..8 in row-major order of bands). -/
def boxCells (g : Grid) (b : Nat) : List Int :=
  (List.range 3).flatMap (fun i => (List.range 3).map (fun j =>
    getCell g (3 * (b / 3) + i) (3 * (b % 3) + j)))

/-- Digit `d` occurs at most once among `cs`. -/
def atMostOnce (cs : List Int) (d : Int) : Bool :=
  decide (cs.countP (fun x => x == d) ≤ 1)

/-- Digit `d` occurs exactly once among `cs`. -/
def exactlyOnce (cs : List Int) (d : Int) : Bool :=
  cs.countP (fun x => x == d) == 1

/-- The search invariant stated by the specification: every non-zero cell
satisfies the row/column/box uniqueness constraint, i.e. no digit 1-9 occurs
twice in a row, a column, or a box. -/
def consistent (g : Grid) : Bool :=
  (List.range 9).all (fun k => digits.all (fun d =>
    atMostOnce (rowCells g k) d && atMostOnce (colCells g k) d &&
      atMostOnce (boxCells g k) d))

/-- A fully valid solved grid: every row, column and box contains each digit
1-9 exactly once. -/
def validSolution (g : Grid) : Bool :=
  (List.range 9).all (fun k => digits.all (fun d =>
    exactlyOnce (rowCells g k) d && exactlyOnce (colCells g k) d &&
      exactlyOnce (boxCells g k) d))

/-- Number of empty (zero) cells of a grid. -/
def zeros (g : Grid) : Nat := g.countP (fun x => x == 0)

/-- A grid that is entirely empty except for a 1 at row 8, column 0. -/
def gColBug : Grid := List.replicate 72 (0 : Int) ++ 1 :: List.replicate 8 (0 : Int)

/-- A complete valid Sudoku solution, used to build counterexample inputs. -/
def sampleS : Grid :=
  [2, 1, 3, 4, 5, 6, 7, 8, 9,
   4, 5, 6, 7, 8, 9, 1, 2, 3,
   7, 8, 9, 1, 2, 3, 4, 5, 6,
   3, 4, 1, 2, 6, 5, 9, 7, 8,
   6, 7, 2, 9, 1, 8, 5, 3, 4,
   5, 9, 8, 3, 7, 4, 2, 6, 1,
   8, 3, 7, 5, 9, 1, 6, 4, 2,
   9, 6, 5, 8, 4, 2, 3, 1, 7,
   1, 2, 4, 6, 3, 7, 8, 9, 5]

/-- The sample solution with cells (0,0) and (0,1) blanked.  It is a
consistent puzzle, yet the buggy column check lets the solver fill (0,0)
with the 1 already sitting at (8,0) and (0,1) with the 2 sitting at (8,1). -/
def sampleI : Grid :=
  [0, 0, 3, 4, 5, 6, 7, 8, 9,
   4, 5, 6, 7, 8, 9, 1, 2, 3,
   7, 8, 9, 1, 2, 3, 4, 5, 6,
   3, 4, 1, 2, 6, 5, 9, 7, 8,
   6, 7, 2, 9, 1, 8, 5, 3, 4,
   5, 9, 8, 3, 7, 4, 2, 6, 1,
   8, 3, 7, 5, 9, 1, 6, 4, 2,
   9, 6, 5, 8, 4, 2, 3, 1, 7,
   1, 2, 4, 6, 3, 7, 8, 9, 5]

/-- A grid on which the solver fails at once: the first empty cell is (0,8),
digits 1-8 already occur in row 0 and digit 9 occurs in the containing box. -/
def gUnsat : Grid :=
  [1, 2, 3, 4, 5, 6, 7, 8, 0,
   0, 0, 0, 0, 0, 0, 0, 9, 0,
   0, 0, 0, 0, 0, 0, 0, 0, 0,
   0, 0, 0, 0, 0, 0, 0, 0, 0,
   0, 0, 0, 0, 0, 0, 0, 0, 0,
   0, 0, 0, 0, 0, 0, 0, 0, 0,
   0, 0, 0, 0, 0, 0, 0, 0, 0,
   0, 0, 0, 0, 0, 0, 0, 0, 0,
   0, 0, 0, 0, 0, 0, 0, 0, 0]

/-- C1: `is_location_safe` returns true only if the digit does not already
appear in the row, the column (all nine rows 0-8), or the box.  FALSE for
the code: `used_in_col` loops `for i in 0..8` and never inspects row 8, so
on a grid whose only non-zero cell is a 1 at (8,0), placing 1 at (0,0) is
reported safe although 1 already appears in column 0. -/
theorem is_location_safe_misses_row8 :
    getCell gColBug 8 0 = 1 ∧ getCell gColBug 0 0 = 0 ∧
      is_location_safe gColBug 0 0 1 = true := by decide

/-- Setting a cell that holds 0 and then resetting it to 0 is the identity:
this is why the Rust rollback `grid[l.0][l.1] = 0` restores the entry grid. -/
lemma set_set_zero_cancel :
    ∀ (l : List Int) (n : Nat) (i : Int), l.getD n 0 = 0 → (l.set n i).set n 0 = l := by
  intro l
  induction l with
  | nil => intro n i _; cases n <;> rfl
  | cons x t ih =>
    intro n i h
    cases n with
    | zero =>
      have hx : x = 0 := h
      show (0 : Int) :: t = x :: t
      rw [hx]
    | succ n =>
      show x :: (t.set n i).set n 0 = x :: t
      rw [ih n i h]

/-- Rollback at the level of grids. -/
lemma setCell_setCell_zero (g : Grid) (row col : Nat) (i : Int)
    (h : getCell g row col = 0) : setCell (setCell g row col i) row col 0 = g :=
  set_set_zero_cancel g (9 * row + col) i h

/-- Overwriting an in-range zero entry with a non-zero value strictly
decreases the number of zero entries. -/
lemma countP_set_nonzero_lt :
    ∀ (l : List Int) (n : Nat) (v : Int), n < l.length → l.getD n 0 = 0 → v ≠ 0 →
      (l.set n v).countP (fun x => x == 0) < l.countP (fun x => x == 0) := by
  intro l
  induction l with
  | nil => intro n v hn _ _; simp at hn
  | cons x t ih =>
    intro n v hn h0 hv
    cases n with
    | zero =>
      have hx : x = 0 := h0
      have hvf : (v == 0) = false := by simpa using hv
      show (v :: t).countP (fun x => x == 0) < (x :: t).countP (fun x => x == 0)
      rw [hx]
      simp [List.countP_cons, hvf]
    | succ n =>
      have hn' : n < t.length := by simpa using hn
      have ht := ih n v hn' h0 hv
      show (x :: t.set n v).countP (fun x => x == 0) < (x :: t).countP (fun x => x == 0)
      simp only [List.countP_cons]
      omega

/-- Placing a non-zero digit on an empty in-range cell strictly decreases
the number of empty cells. -/
lemma zeros_setCell_lt (g : Grid) (r c : Nat) (i : Int) (hlen : g.length = 81)
    (hr : r < 9) (hc : c < 9) (h0 : getCell g r c = 0) (hi : i ≠ 0) :
    zeros (setCell g r c i) < zeros g :=
  countP_set_nonzero_lt g (9 * r + c) i (by rw [hlen]; omega) h0 hi

/-- A scan either finds no zero cell and yields the sentinel, or splits the
scan order at the first position holding a zero cell. -/
lemma findEmptyFrom_split (g : Grid) :
    ∀ ps : List (Nat × Nat),
      ((∀ p ∈ ps, getCell g p.1 p.2 ≠ 0) ∧ findEmptyFrom g ps = (9, 9)) ∨
      (∃ l₁ p l₂, ps = l₁ ++ p :: l₂ ∧ (∀ q ∈ l₁, getCell g q.1 q.2 ≠ 0) ∧
        getCell g p.1 p.2 = 0 ∧ findEmptyFrom g ps = p) := by
  intro ps
  induction ps with
  | nil => exact Or.inl ⟨by simp, rfl⟩
  | cons p rest ih =>
    by_cases h : getCell g p.1 p.2 = 0
    · refine Or.inr ⟨[], p, rest, rfl, by simp, h, ?_⟩
      simp [findEmptyFrom, h]
    · have hcond : (getCell g p.1 p.2 == 0) = false := by simpa using h
      have hstep : findEmptyFrom g (p :: rest) = findEmptyFrom g rest := by
        simp [findEmptyFrom, hcond]
      rcases ih with ⟨hall, heq⟩ | ⟨l₁, q, l₂, hps, hl₁, hq0, heq⟩
      · refine Or.inl ⟨?_, by rw [hstep, heq]⟩
        intro q hq
        rcases List.mem_cons.mp hq with rfl | hq'
        · exact h
        · exact hall q hq'
      · refine Or.inr ⟨p :: l₁, q, l₂, by rw [hps]; rfl, ?_, hq0, by rw [hstep, heq]⟩
        intro q' hq'
        rcases List.mem_cons.mp hq' with rfl | hq''
        · exact h
        · exact hl₁ q' hq''

/-- Membership in the row-major scan order. -/
lemma mem_positions (p : Nat × Nat) : p ∈ positions ↔ p.1 < 9 ∧ p.2 < 9 := by
  obtain ⟨r, c⟩ := p
  simp [positions]

/-- The scan order is strictly increasing in the row-major key. -/
lemma positions_sorted :
    positions.Pairwise (fun a b => 9 * a.1 + a.2 < 9 * b.1 + b.2) := by decide

/-- When `find_empty` does not return the sentinel, it returns an in-range
position holding a zero cell. -/
lemma find_empty_ne_spec (g : Grid) (h : find_empty g ≠ (9, 9)) :
    (find_empty g).1 < 9 ∧ (find_empty g).2 < 9 ∧
      getCell g (find_empty g).1 (find_empty g).2 = 0 := by
  rcases findEmptyFrom_split g positions with ⟨_, heq⟩ | ⟨l₁, p, l₂, hps, _, hp0, heq⟩
  · exact absurd heq h
  · have hmem : p ∈ positions := by rw [hps]; exact List.mem_append_right _ (List.mem_cons_self p l₂)
    have hb := (mem_positions p).mp hmem
    rw [show find_empty g = p from heq]
    exact ⟨hb.1, hb.2, hp0⟩

/-- If no cell is zero, the scan returns the sentinel. -/
lemma find_empty_eq_sentinel (g : Grid) (h : ∀ k, k < 81 → g.getD k 0 ≠ 0) :
    find_empty g = (9, 9) := by
  rcases findEmptyFrom_split g positions with ⟨_, heq⟩ | ⟨l₁, p, l₂, hps, _, hp0, _⟩
  · exact heq
  · exfalso
    have hmem : p ∈ positions := by rw [hps]; exact List.mem_append_right _ (List.mem_cons_self p l₂)
    have hb := (mem_positions p).mp hmem
    exact h (9 * p.1 + p.2) (by omega) hp0

/-- If the digit loop returns false, the grid it hands back is the grid it
was entered with: every placement has been rolled back. -/
lemma digitLoop_false_grid (go : Grid → SolveOut) (row col : Nat) :
    ∀ (ds : List Int) (g : Grid), getCell g row col = 0 →
      (digitLoop go row col g ds).ok = false → (digitLoop go row col g ds).grid = g := by
  intro ds
  induction ds with
  | nil => intro g _ _; rfl
  | cons i rest ih =>
    intro g h0 hok
    by_cases hsafe : is_location_safe g row col i = true
    · rw [digitLoop] at hok ⊢
      simp only [hsafe, if_true] at hok ⊢
      by_cases hgo : (go (setCell g row col i)).ok = true
      · simp [hgo] at hok
      · have hgo' : (go (setCell g row col i)).ok = false := by
          simpa using hgo
        simp only [hgo', Bool.false_eq_true, if_false] at hok ⊢
        rw [setCell_setCell_zero g row col i h0] at hok ⊢
        exact ih g h0 hok
    · rw [digitLoop] at hok ⊢
      simp only [hsafe, if_false] at hok ⊢
      exact ih g h0 hok

/-- If a call of the solver returns false, the grid held by that call at the
moment it returns equals the grid it was entered with. -/
lemma solveAux_false_grid (fuel : Nat) (g : Grid)
    (hok : (solveAux fuel g).ok = false) : (solveAux fuel g).grid = g := by
  cases fuel with
  | zero => rfl
  | succ fuel =>
    rw [solveAux] at hok ⊢
    by_cases hfe : find_empty g = (9, 9)
    · simp [hfe] at hok
    · simp only [hfe, if_false] at hok ⊢
      have h0 := (find_empty_ne_spec g hfe).2.2
      exact digitLoop_false_grid (solveAux fuel) _ _ _ g h0 hok

/-- C4: whenever the solver returns false, the caller's grid is left in its
original state: every placement made during the failed search has been
rolled back to 0 (in Rust the array is passed by value, so deeper levels
cannot disturb it; within a level every placement is undone before the
`return false`). -/
theorem solve_sudoku_false_rolls_back (g : Grid)
    (hok : (solve_sudoku g).ok = false) : (solve_sudoku g).grid = g :=
  solveAux_false_grid 82 g hok

/-- Witness for C4 at a concrete unsolvable grid. -/
theorem solve_sudoku_false_rolls_back_witness :
    (solve_sudoku gUnsat).ok = false ∧ (solve_sudoku gUnsat).grid = gUnsat :=
  ⟨by decide, solve_sudoku_false_rolls_back gUnsat (by decide)⟩

/-- C5: on a grid with no zero cell the solver returns true immediately,
leaves the grid unchanged, and attempts no digit placement (no recursive
call is made). -/
theorem solve_sudoku_solved_grid (g : Grid) (h : ∀ k, k < 81 → g.getD k 0 ≠ 0) :
    solve_sudoku g = ⟨true, g, []⟩ := by
  have hfe : find_empty g = (9, 9) := find_empty_eq_sentinel g h
  show solveAux (81 + 1) g = ⟨true, g, []⟩
  rw [solveAux]
  simp [hfe]

/-- Witness for C5 at the concrete solved grid. -/
theorem solve_sudoku_solved_grid_witness :
    solve_sudoku sampleS = ⟨true, sampleS, []⟩ :=
  solve_sudoku_solved_grid sampleS (by decide)

/-- C6: `find_empty` returns the row-major-first zero cell, and the sentinel
`(9, 9)` when the grid has no zero cell. -/
theorem find_empty_first_zero (g : Grid) (r c : Nat) (h : find_empty g = (r, c)) :
    (r = 9 ∧ c = 9 ∧ ∀ r' c', r' < 9 → c' < 9 → getCell g r' c' ≠ 0) ∨
    (r < 9 ∧ c < 9 ∧ getCell g r c = 0 ∧
      ∀ r' c', r' < 9 → c' < 9 → 9 * r' + c' < 9 * r + c → getCell g r' c' ≠ 0) := by
  rcases findEmptyFrom_split g positions with ⟨hall, heq⟩ | ⟨l₁, p, l₂, hps, hl₁, hp0, heq⟩
  · left
    have hrc : ((r : Nat), (c : Nat)) = ((9 : Nat), (9 : Nat)) := h ▸ heq
    refine ⟨congrArg Prod.fst hrc, congrArg Prod.snd hrc, ?_⟩
    intro r' c' hr' hc'
    exact hall (r', c') ((mem_positions (r', c')).mpr ⟨hr', hc'⟩)
  · right
    have hprc : p = (r, c) := heq.symm.trans h
    subst hprc
    have hmem : (r, c) ∈ positions := by
      rw [hps]; exact List.mem_append_right _ (List.mem_cons_self (r, c) l₂)
    have hb := (mem_positions (r, c)).mp hmem
    refine ⟨hb.1, hb.2, hp0, ?_⟩
    intro r' c' hr' hc' hkey
    have hmem' : (r', c') ∈ positions := (mem_positions (r', c')).mpr ⟨hr', hc'⟩
    rw [hps] at hmem'
    rcases List.mem_append.mp hmem' with hin | hin
    · exact hl₁ (r', c') hin
    · rcases List.mem_cons.mp hin with heq' | hin'
      · exfalso
        have hfst : r' = r := congrArg Prod.fst heq'
        have hsnd : c' = c := congrArg Prod.snd heq'
        omega
      · exfalso
        have hsorted := positions_sorted
        rw [hps] at hsorted
        have h2 := (List.pairwise_append.mp hsorted).2.1
        have h3 := (List.pairwise_cons.mp h2).1 (r', c') hin'
        omega

/-- Witness for C6 at a concrete grid whose first zero cell is (0, 0). -/
theorem find_empty_first_zero_witness :
    ((0 : Nat) = 9 ∧ (0 : Nat) = 9 ∧
        ∀ r' c', r' < 9 → c' < 9 → getCell gColBug r' c' ≠ 0) ∨
      ((0 : Nat) < 9 ∧ (0 : Nat) < 9 ∧ getCell gColBug 0 0 = 0 ∧
        ∀ r' c', r' < 9 → c' < 9 → 9 * r' + c' < 9 * 0 + 0 → getCell gColBug r' c' ≠ 0) :=
  find_empty_first_zero gColBug 0 0 (by decide)

/-- The digit loop only looks at the recursive solver on the grids obtained
by placing one of its digits at the empty cell, so two solvers agreeing
there produce identical loop results. -/
lemma digitLoop_congr (go₁ go₂ : Grid → SolveOut) (row col : Nat) :
    ∀ (ds : List Int) (g : Grid), getCell g row col = 0 →
      (∀ i ∈ ds, go₁ (setCell g row col i) = go₂ (setCell g row col i)) →
      digitLoop go₁ row col g ds = digitLoop go₂ row col g ds := by
  intro ds
  induction ds with
  | nil => intro g _ _; rfl
  | cons i rest ih =>
    intro g h0 hagree
    have hi : go₁ (setCell g row col i) = go₂ (setCell g row col i) :=
      hagree i (List.mem_cons_self i rest)
    have hrest : ∀ j ∈ rest, go₁ (setCell g row col j) = go₂ (setCell g row col j) :=
      fun j hj => hagree j (List.mem_cons_of_mem i hj)
    rw [digitLoop, digitLoop]
    by_cases hsafe : is_location_safe g row col i = true
    · simp only [hsafe, if_true, hi]
      by_cases hgo : (go₂ (setCell g row col i)).ok = true
      · simp [hgo]
      · have hgo' : (go₂ (setCell g row col i)).ok = false := by simpa using hgo
        simp only [hgo', Bool.false_eq_true, if_false]
        rw [setCell_setCell_zero g row col i h0, ih g h0 hrest]
    · simp only [hsafe, if_false]
      exact ih g h0 hrest

/-- Every digit the solver tries is non-zero. -/
lemma digits_ne_zero : ∀ i ∈ ([1, 2, 3, 4, 5, 6, 7, 8, 9] : List Int), i ≠ 0 := by
  decide

/-- Fuel stability: on a 9×9 grid, any fuel beyond the number of empty cells
produces the same result, because each recursive call strictly decreases the
number of empty cells.  This is the well-foundedness of the Rust recursion. -/
lemma solveAux_fuel_stable :
    ∀ (f₁ : Nat) (g : Grid) (f₂ : Nat), g.length = 81 → zeros g < f₁ → zeros g < f₂ →
      solveAux f₁ g = solveAux f₂ g := by
  intro f₁
  induction f₁ with
  | zero => intro g f₂ _ h1 _; omega
  | succ f ih =>
    intro g f₂ hlen h1 h2
    cases f₂ with
    | zero => omega
    | succ f₂' =>
      rw [solveAux, solveAux]
      by_cases hfe : find_empty g = (9, 9)
      · simp [hfe]
      · simp only [hfe, if_false]
        obtain ⟨hr, hc, h0⟩ := find_empty_ne_spec g hfe
        apply digitLoop_congr
        · exact h0
        · intro i himem
          have hine : i ≠ 0 := digits_ne_zero i himem
          have hlt := zeros_setCell_lt g (find_empty g).1 (find_empty g).2 i hlen hr hc h0 hine
          have hlen' : (setCell g (find_empty g).1 (find_empty g).2 i).length = 81 := by
            rw [setCell, List.length_set, hlen]
          exact ih _ f₂' hlen' (by omega) (by omega)

/-- C7: the solver terminates on every 9×9 grid.  The fuel-indexed embedding
stabilizes as soon as the fuel exceeds the number of empty cells (each
recursive call is made on a grid with strictly fewer zero cells), so
`solve_sudoku`'s fuel of 82 computes the limit of the recursion. -/
theorem solve_sudoku_terminates (g : Grid) (f₁ f₂ : Nat) (hlen : g.length = 81)
    (h₁ : zeros g < f₁) (h₂ : zeros g < f₂) :
    solveAux f₁ g = solveAux f₂ g ∧ solve_sudoku g = solveAux (zeros g + 1) g := by
  constructor
  · exact solveAux_fuel_stable f₁ g f₂ hlen h₁ h₂
  · have hz : zeros g ≤ 81 := by
      show List.countP (fun x => x == 0) g ≤ 81
      rw [show (81 : Nat) = g.length from hlen.symm]
      exact List.countP_le_length _
    exact solveAux_fuel_stable 82 g (zeros g + 1) hlen (by omega) (by omega)

/-- Witness for C7 at a concrete puzzle with two empty cells. -/
theorem solve_sudoku_terminates_witness :
    solveAux 3 sampleI = solveAux 4 sampleI ∧
      solve_sudoku sampleI = solveAux (zeros sampleI + 1) sampleI :=
  solve_sudoku_terminates sampleI 3 4 (by decide) (by decide) (by decide)

/-- C2: on a consistent input the solver can return true with a completed
grid that is NOT a valid solution.  FALSE for the code: on `sampleI` (a
valid solution with two cells blanked) the buggy column check lets the
solver complete the grid with a duplicated 1 in column 0 and a duplicated 2
in column 1, and it still returns true. -/
theorem solver_accepts_invalid_completion :
    consistent sampleI = true ∧ (solve_sudoku sampleI).ok = true ∧
      zeros (solve_sudoku sampleI).grid = 0 ∧
      validSolution (solve_sudoku sampleI).grid = false := by decide

/-- C3: the consistency invariant is NOT maintained during the search: on
the consistent input `sampleI`, a grid passed to a recursive call of the
solver already violates the column uniqueness constraint. -/
theorem search_breaks_consistency :
    consistent sampleI = true ∧
      (solve_sudoku sampleI).calls.any (fun g => !consistent g) = true := by decide

end SudokuSolver

namespace TicTacToe

/-- Embedding of `enum Player`. -/
inductive Player where
  | Nought
  | Cross
deriving DecidableEq, Repr

/-- Embedding of `impl fmt::Display for Player`. -/
def Player.display : Player → String
  | Player.Nought => "O"
  | Player.Cross => "X"

/-- Embedding of `struct ParsePlayerError {}`. -/
inductive ParsePlayerError where
  | mk
deriving DecidableEq, Repr

/-- Embedding of `impl str::FromStr for Player`: only the exact strings "O"
and "X" parse. -/
def from_str (s : String) : Except ParsePlayerError Player :=
  if s = "O" then Except.ok Player.Nought
  else if s = "X" then Except.ok Player.Cross
  else Except.error ParsePlayerError.mk

/-- Embedding of `enum Cell`. -/
inductive Cell where
  | Occupied (player : Player)
  | Vacant
deriving DecidableEq, Repr

/-- `Board::WIDTH`. -/
def Board.WIDTH : Nat := 3

/-- `Board::SIZE`. -/
def Board.SIZE : Nat := Board.WIDTH * Board.WIDTH

/-- Embedding of `struct Pos`.  In Rust the field is private and the only
constructor is `Pos::new`, so every `Pos` value carries the range invariant
1 ≤ pos ≤ 9; the shallow embedding records that invariant in the type. -/
structure Pos where
  pos : Nat
  pos_in_range : 1 ≤ pos ∧ pos ≤ Board.SIZE
deriving DecidableEq, Repr

/-- Embedding of `Pos::new`. -/
def Pos.new (n : Nat) : Option Pos :=
  if h : 1 ≤ n ∧ n ≤ Board.SIZE then some ⟨n, h⟩ else none

/-- Embedding of `Pos::get`. -/
def Pos.get (p : Pos) : Nat := p.pos

/-- Embedding of `struct Board`: a fixed-size array `[Cell; Board::SIZE]`,
rendered as a list with a length invariant. -/
structure Board where
  cells : List Cell
  size_eq : cells.length = Board.SIZE

/-- Embedding of `struct PlaceError`. -/
structure PlaceError where
  pos : Pos
  occupied_by : Player
deriving DecidableEq, Repr

/-- Embedding of `Board::new`. -/
def Board.new : Board :=
  ⟨List.replicate Board.SIZE Cell.Vacant, List.length_replicate _ _⟩

/-- Embedding of `Board::place`: the Rust method mutates `self` and returns
`Result<(), PlaceError>`; the embedding returns the result together with the
board after the call. -/
def Board.place (b : Board) (pos : Pos) (player : Player) :
    Except PlaceError Unit × Board :=
  match b.cells.getD (pos.get - 1) Cell.Vacant with
  | Cell.Occupied q => (Except.error ⟨pos, q⟩, b)
  | Cell.Vacant =>
      (Except.ok (),
        ⟨b.cells.set (pos.get - 1) (Cell.Occupied player),
          by rw [List.length_set]; exact b.size_eq⟩)

/-- Reading an entry of a list after setting another entry. -/
lemma getD_set_ne {α : Type} :
    ∀ (l : List α) (n m : Nat) (v d : α), n ≠ m →
      (l.set n v).getD m d = l.getD m d := by
  intro l
  induction l with
  | nil => intro n m v d _; cases n <;> rfl
  | cons x t ih =>
    intro n m v d hnm
    cases n with
    | zero =>
      cases m with
      | zero => exact absurd rfl hnm
      | succ m => rfl
    | succ n =>
      cases m with
      | zero => rfl
      | succ m => exact ih n m v d (by omega)

/-- Reading the entry of a list just set. -/
lemma getD_set_self {α : Type} :
    ∀ (l : List α) (n : Nat) (v d : α), n < l.length →
      (l.set n v).getD n d = v := by
  intro l
  induction l with
  | nil => intro n v d hn; simp at hn
  | cons x t ih =>
    intro n v d hn
    cases n with
    | zero => rfl
    | succ n => exact ih n v d (by simpa using hn)

/-- Index of a Pos into the cells array is always in range. -/
lemma pos_index_lt (p : Pos) : p.get - 1 < Board.SIZE := by
  have h := p.pos_in_range
  show p.pos - 1 < Board.SIZE
  revert h
  show 1 ≤ p.pos ∧ p.pos ≤ 9 → p.pos - 1 < 9
  omega

/-- Boards with equal cell lists are equal. -/
lemma Board.ext_cells {b₁ b₂ : Board} (h : b₁.cells = b₂.cells) : b₁ = b₂ := by
  cases b₁; cases b₂; simpa using h

/-- C8: placing on a vacant cell succeeds and changes exactly that cell to
`Occupied player`; placing on a cell occupied by `q` returns
`PlaceError { pos, occupied_by: q }` and leaves the board unchanged. -/
theorem place_case_analysis (b : Board) (pos : Pos) (player : Player) :
    (b.cells.getD (pos.get - 1) Cell.Vacant = Cell.Vacant →
      (b.place pos player).1 = Except.ok () ∧
      (b.place pos player).2.cells.getD (pos.get - 1) Cell.Vacant =
        Cell.Occupied player ∧
      ∀ i, i ≠ pos.get - 1 →
        (b.place pos player).2.cells.getD i Cell.Vacant =
          b.cells.getD i Cell.Vacant) ∧
    (∀ q, b.cells.getD (pos.get - 1) Cell.Vacant = Cell.Occupied q →
      (b.place pos player).1 = Except.error ⟨pos, q⟩ ∧
      (b.place pos player).2 = b) := by
  constructor
  · intro hvac
    have hidx : pos.get - 1 < b.cells.length := by
      rw [b.size_eq]; exact pos_index_lt pos
    refine ⟨?_, ?_, ?_⟩
    · rw [Board.place, hvac]
    · rw [Board.place, hvac]
      exact getD_set_self b.cells (pos.get - 1) (Cell.Occupied player) Cell.Vacant hidx
    · intro i hi
      rw [Board.place, hvac]
      exact getD_set_ne b.cells (pos.get - 1) i (Cell.Occupied player) Cell.Vacant
        (fun h => hi h.symm)
  · intro q hocc
    constructor
    · rw [Board.place, hocc]
    · rw [Board.place, hocc]

/-- Witness for C8: both branches at concrete boards. -/
theorem place_case_analysis_witness :
    ((Board.new.place ⟨1, by decide⟩ Player.Nought).1 = Except.ok () ∧
      (Board.new.place ⟨1, by decide⟩ Player.Nought).2.cells.getD 0 Cell.Vacant =
        Cell.Occupied Player.Nought) ∧
    ((Board.new.place ⟨1, by decide⟩ Player.Nought).2.place ⟨1, by decide⟩
        Player.Cross).1 =
      Except.error ⟨⟨1, by decide⟩, Player.Nought⟩ := by
  constructor
  · have h := (place_case_analysis Board.new ⟨1, by decide⟩ Player.Nought).1 (by decide)
    exact ⟨h.1, h.2.1⟩
  · have h := (place_case_analysis
        ((Board.new.place ⟨1, by decide⟩ Player.Nought).2) ⟨1, by decide⟩
        Player.Cross).2 Player.Nought (by decide)
    exact h.1

/-- C9: `Pos::new` succeeds exactly on 1..=9, preserves the wrapped value,
and every `Pos` indexes the 9-cell array in bounds. -/
theorem pos_new_in_range :
    (∀ n : Nat, (Pos.new n).isSome = true ↔ (1 ≤ n ∧ n ≤ Board.SIZE)) ∧
    (∀ (n : Nat) (p : Pos), Pos.new n = some p → p.get = n) ∧
    (∀ (b : Board) (p : Pos), p.get - 1 < b.cells.length) := by
  refine ⟨?_, ?_, ?_⟩
  · intro n
    constructor
    · intro h
      by_contra hc
      rw [Pos.new, dif_neg hc] at h
      simp at h
    · intro h
      rw [Pos.new, dif_pos h]
      rfl
  · intro n p h
    rw [Pos.new] at h
    by_cases hn : 1 ≤ n ∧ n ≤ Board.SIZE
    · rw [dif_pos hn] at h
      have : (⟨n, hn⟩ : Pos) = p := Option.some.inj h
      rw [show p = (⟨n, hn⟩ : Pos) from this.symm]
      rfl
    · rw [dif_neg hn] at h
      exact absurd h (by simp)
  · intro b p
    rw [b.size_eq]
    exact pos_index_lt p

/-- Witness for C9 at concrete values. -/
theorem pos_new_in_range_witness :
    (Pos.new 5).isSome = true ∧
      ((Pos.new 0).isSome = true → (1 ≤ 0 ∧ 0 ≤ Board.SIZE)) ∧
      (Board.new.cells.length > (⟨9, by decide⟩ : Pos).get - 1) :=
  ⟨(pos_new_in_range.1 5).mpr (by decide),
    fun h => (pos_new_in_range.1 0).mp h,
    pos_new_in_range.2.2 Board.new ⟨9, by decide⟩⟩

/-- C10: parsing a player from its displayed form is a round trip, and every
string other than "O" and "X" fails to parse. -/
theorem player_display_parse_round_trip :
    (∀ p : Player, from_str (Player.display p) = Except.ok p) ∧
    (∀ s : String, s ≠ "O" → s ≠ "X" →
      from_str s = Except.error ParsePlayerError.mk) := by
  constructor
  · intro p
    cases p <;> rfl
  · intro s h1 h2
    rw [from_str, if_neg h1, if_neg h2]

/-- Witness for C10 at concrete values. -/
theorem player_display_parse_round_trip_witness :
    from_str (Player.display Player.Nought) = Except.ok Player.Nought ∧
      from_str (Player.display Player.Cross) = Except.ok Player.Cross ∧
      from_str "a" = Except.error ParsePlayerError.mk :=
  ⟨player_display_parse_round_trip.1 Player.Nought,
    player_display_parse_round_trip.1 Player.Cross,
    player_display_parse_round_trip.2 "a" (by decide) (by decide)⟩

end TicTacToe
